import Mathlib

/-!
Shallow embedding of `src/organizer.py` (a file organizer: it scans a flat
directory and moves files into category subfolders by extension).

Modelling conventions:
* Paths are strings; `os.path.join a b` is modelled as `a ++ "/" ++ b`
  (all joined components in this program are `listdir` names or category
  labels, which never start with a separator).
* The filesystem is a pair of lists: paths of regular files and paths of
  directories.  `os.path.isfile` is membership in the first,
  `os.path.exists` membership in either.
* The directory snapshot (`os.listdir`) is an input list of names, in
  implementation-defined order, exactly as the code takes it.
* External failures (permission errors, I/O errors) are an oracle `Env`:
  a predicate saying which `os.makedirs` and which `shutil.move` calls
  raise.  `_safe_move` re-raises those errors; the caller catches them.
* The console output of the program is modelled as the data it prints:
  the list of move records (`Moved`/`Would move` lines), the list of
  failure records (`Warning: Skipping` lines) and the per-category count
  dictionary used for the summary.
* `str.lower` is modelled with character-wise `Char.toLower` (the strings
  compared in the program are ASCII, where the two agree).
* The Python `while` collision loop is embedded with explicit fuel
  `taken.length + 2`; the adequacy theorems below prove the fuel is never
  exhausted, so the embedding computes exactly what the unbounded loop
  computes.
-/

namespace FileOrganizer

/-- Model of `os.path.join` for the joins performed by this program. -/
def pathJoin (a b : String) : String := a ++ "/" ++ b

/-- Model of Python `str.lower()` (character-wise lowering; on the ASCII
strings this program compares it agrees with Python). -/
def strLower (s : String) : String := ⟨s.data.map Char.toLower⟩

/-- Split a character list around the LAST occurrence of `sep`:
`lastSplit sep l = some (before, after)` with `l = before ++ sep :: after`
and `sep ∉ after`; `none` when `sep` does not occur. -/
def lastSplit (sep : Char) : List Char → Option (List Char × List Char)
  | [] => none
  | c :: rest =>
    match lastSplit sep rest with
    | some (b, a) => some (c :: b, a)
    | none => if c = sep then some ([], rest) else none

/-- Model of `os.path.splitext` on basenames (no separators): split at the
last dot, unless every character before that dot is itself a dot (leading
dots belong to the base, so `.gitignore` has extension `""`). -/
def splitext (name : String) : String × String :=
  match lastSplit '.' name.data with
  | some (b, a) => if b.any (fun c => c != '.') then (⟨b⟩, ⟨'.' :: a⟩) else (name, "")
  | none => (name, "")

/-- Model of `os.path.basename`: the part after the last separator. -/
def basename (p : String) : String :=
  match lastSplit '/' p.data with
  | some (_, a) => ⟨a⟩
  | none => p

/-- Model of `os.path.dirname`: the part before the last separator (the
program only applies it to normalized `join` results, where no trailing
separators occur). -/
def dirname (p : String) : String :=
  match lastSplit '/' p.data with
  | some (b, _) => ⟨b⟩
  | none => ""

/-- Model of `item_name.startswith('.')`. -/
def startsWithDot (name : String) : Bool :=
  match name.data with
  | '.' :: _ => true
  | _ => false

/-- The extension-to-category table `FILE_EXT_MAPPINGS` of the source,
as an association list (Python dict with distinct keys). -/
def FILE_EXT_MAPPINGS : List (String × String) :=
  [(".jpg", "Images"), (".jpeg", "Images"), (".png", "Images"), (".gif", "Images"),
   (".webp", "Images"),
   (".pdf", "Documents"), (".docx", "Documents"), (".txt", "Documents"),
   (".pptx", "Documents"), (".xlsx", "Documents"), (".csv", "Documents"),
   (".mp4", "Videos"), (".mov", "Videos"), (".avi", "Videos"), (".mkv", "Videos"),
   (".ts", "Videos"),
   (".mp3", "Audio"), (".wav", "Audio"), (".aac", "Audio"),
   (".zip", "Archives"), (".rar", "Archives"), (".7z", "Archives")]

/-- The default category `OTHER_CATEGORY` of the source. -/
def OTHER_CATEGORY : String := "Others"

/-- The ignore set `SKIP_FILENAMES` of the source (stored lowercase,
compared against `item_name.lower()`). -/
def SKIP_FILENAMES : List String :=
  ["desktop.ini", "thumbs.db", "ehthumbs.db", "autorun.inf"]

/-- Line 118 of the source: the lowercased final extension of a name. -/
def extOf (name : String) : String := strLower (splitext name).2

/-- Line 121 of the source: `FILE_EXT_MAPPINGS.get(file_extension, OTHER_CATEGORY)`. -/
def categoryOf (name : String) : String :=
  (FILE_EXT_MAPPINGS.lookup (extOf name)).getD OTHER_CATEGORY

/-- Filesystem model: regular files and directories, by absolute path. -/
structure FS where
  files : List String
  dirs : List String
deriving DecidableEq, Repr

/-- Model of `os.path.isfile`. -/
def FS.isfile (fs : FS) (p : String) : Bool := decide (p ∈ fs.files)

/-- Model of `os.path.exists`. -/
def FS.existsPath (fs : FS) (p : String) : Bool :=
  decide (p ∈ fs.files) || decide (p ∈ fs.dirs)

/-- Model of `os.makedirs(p, exist_ok=True)` when it succeeds. -/
def FS.makedirs (fs : FS) (p : String) : FS :=
  { fs with dirs := p :: fs.dirs }

/-- Model of a successful `shutil.move`. -/
def FS.move (fs : FS) (src dst : String) : FS :=
  { files := dst :: fs.files.erase src, dirs := fs.dirs }

/-- Oracle for the external failures the source catches: which `os.makedirs`
calls raise (`PermissionError`/`OSError`) and which `shutil.move` calls
raise. -/
structure Env where
  makedirsFails : String → Bool
  moveFails : String → String → Bool

/-- The numbered rename `f"{base_name} ({counter}){ext}"` of the collision
loop (lines 52 and 152 of the source). -/
def mkNumbered (baseName : String) (counter : Nat) (ext : String) : String :=
  baseName ++ " (" ++ Nat.repr counter ++ ")" ++ ext

/-- The sequence of candidate destinations the collision loop tries:
index 0 is the tentative destination itself, index `n+1` is the `n+1`-th
numbered rename joined under the destination directory. -/
def candName (destDir baseName ext orig : String) : Nat → String
  | 0 => orig
  | n + 1 => pathJoin destDir (mkNumbered baseName (n + 1) ext)

/-- Fuel-indexed embedding of the `while` collision loop (lines 51-53 and
151-153 of the source): while the candidate is taken, rewrite it with the
current counter and increment the counter. -/
def resolveGo (taken : List String) (destDir baseName ext : String) :
    Nat → Nat → String → String
  | 0, _, cand => cand
  | fuel + 1, counter, cand =>
    if cand ∈ taken then
      resolveGo taken destDir baseName ext fuel (counter + 1)
        (pathJoin destDir (mkNumbered baseName counter ext))
    else cand

/-- The collision-resolution computation shared by `_safe_move` (taken =
disk) and the simulate branch (taken = disk plus the in-pass reservation
set): split the destination into directory, base and extension, then run
the loop starting from the destination itself with counter 1.  The fuel
`taken.length + 2` is proved sufficient below (`resolveDestList_spec`). -/
def resolveDestList (taken : List String) (destinationPath : String) : String :=
  let destDir := dirname destinationPath
  let baseExt := splitext (basename destinationPath)
  resolveGo taken destDir baseExt.1 baseExt.2 (taken.length + 2) 1 destinationPath

/-- Embedding of `_safe_move` (lines 33-70): resolve the collision against
the disk, then attempt the move; a raised `PermissionError`/`OSError` is
modelled as `Except.error` carrying the source path. -/
def safeMove (env : Env) (fs : FS) (sourcePath destinationPath : String) :
    Except String (FS × String) :=
  let taken := fs.files ++ fs.dirs
  let candidate := resolveDestList taken destinationPath
  if env.moveFails sourcePath candidate then
    Except.error sourcePath
  else
    Except.ok (fs.move sourcePath candidate, candidate)

/-- One record of the plan / of the executed moves: `{source, destination}`
as absolute paths (the code prints the destination relative to the folder;
that is presentation only). -/
structure MoveOperation where
  source : String
  dest : String
deriving DecidableEq, Repr

/-- The mutable state of the `organize_folder` loop: the filesystem, the
in-pass reservation set `simulated_taken_paths` and the per-category
dictionary `files_moved_count`. -/
structure RunState where
  fs : FS
  reserved : List String
  counts : List (String × Nat)
deriving DecidableEq, Repr

/-- The observable outcome of a run: final state, the move records
(`Moved`/`Would move` lines) in scan order, and the failure records
(`Warning: Skipping` lines) in scan order. -/
structure RunOut where
  state : RunState
  ops : List MoveOperation
  fails : List String
deriving DecidableEq, Repr

/-- Python `files_moved_count[category] = files_moved_count.get(category, 0) + 1`
on an insertion-ordered dictionary. -/
def bumpCount : List (String × Nat) → String → List (String × Nat)
  | [], cat => [(cat, 1)]
  | (k, v) :: rest, cat =>
    if k = cat then (k, v + 1) :: rest else (k, v) :: bumpCount rest cat

/-- Python `sum(files_moved_count.values())`. -/
def countsTotal (counts : List (String × Nat)) : Nat :=
  (counts.map Prod.snd).sum

/-- Embedding of ONE iteration of the `organize_folder` loop body
(lines 105-168): skip the ignore set, skip non-files and hidden names,
classify, prepare the destination folder (execute mode only), then either
record the simulated move (simulate mode) or perform `_safe_move` and
record success or failure.  The result is the new loop state, an optional
move record and an optional failure record. -/
def processOne (simulate : Bool) (env : Env) (folder : String)
    (st : RunState) (name : String) :
    RunState × Option MoveOperation × Option String :=
  let itemPath := pathJoin folder name
  if SKIP_FILENAMES.contains (strLower name) then (st, none, none)
  else if !st.fs.isfile itemPath || startsWithDot name then (st, none, none)
  else
    let category := categoryOf name
    let destFolder := pathJoin folder category
    let destPath := pathJoin destFolder name
    if simulate then
      let taken := st.fs.files ++ st.fs.dirs ++ st.reserved
      let cand := resolveDestList taken destPath
      ({ fs := st.fs, reserved := cand :: st.reserved,
         counts := bumpCount st.counts category },
       some { source := itemPath, dest := cand }, none)
    else if env.makedirsFails destFolder || decide (destFolder ∈ st.fs.files) then
      (st, none, some name)
    else
      let fs1 := st.fs.makedirs destFolder
      match safeMove env fs1 itemPath destPath with
      | Except.error _ =>
        ({ fs := fs1, reserved := st.reserved, counts := st.counts },
         none, some name)
      | Except.ok (fs2, cand) =>
        ({ fs := fs2, reserved := st.reserved,
           counts := bumpCount st.counts category },
         some { source := itemPath, dest := cand }, none)

/-- Embedding of the per-item loop of `organize_folder` (lines 105-168):
process each `os.listdir` name in order with `processOne`, collecting the
move records and the failure records in scan order. -/
def processItems (simulate : Bool) (env : Env) (folder : String) :
    RunState → List String → RunOut
  | st, [] => { state := st, ops := [], fails := [] }
  | st, name :: rest =>
    let s := processOne simulate env folder st name
    let r := processItems simulate env folder s.1 rest
    { state := r.state, ops := s.2.1.toList ++ r.ops,
      fails := s.2.2.toList ++ r.fails }

/-- Embedding of `organize_folder` (lines 73-185): fresh counts and a fresh
reservation set, then the per-item loop over the `os.listdir` snapshot. -/
def organize_folder (simulate : Bool) (env : Env) (folder : String)
    (fs : FS) (itemNames : List String) : RunOut :=
  processItems simulate env folder { fs := fs, reserved := [], counts := [] } itemNames

/-- An entry is classified (reaches step 2 of the per-entry processing)
when it survives the three skip checks of lines 109-114. -/
def classifiedB (fs : FS) (folder name : String) : Bool :=
  !SKIP_FILENAMES.contains (strLower name)
    && fs.isfile (pathJoin folder name) && !startsWithDot name

/-- An environment in which no external operation fails. -/
def envNoFailure : Env :=
  { makedirsFails := fun _ => false, moveFails := fun _ _ => false }

/-- An environment in which every `shutil.move` raises (for example, every
file is locked by another process). -/
def envAllMovesFail : Env :=
  { makedirsFails := fun _ => false, moveFails := fun _ _ => true }

/-- Value of a decimal digit character (defaults to 0 off the digits). -/
def digitVal (c : Char) : Nat :=
  if c = '1' then 1 else if c = '2' then 2 else if c = '3' then 3 else
  if c = '4' then 4 else if c = '5' then 5 else if c = '6' then 6 else
  if c = '7' then 7 else if c = '8' then 8 else if c = '9' then 9 else 0

/-- Left fold reading a decimal digit string back into a number. -/
def ofDigits : Nat → List Char → Nat
  | acc, [] => acc
  | acc, c :: cs => ofDigits (acc * 10 + digitVal c) cs

/-! ### The decimal counter rendering is injective -/

theorem digitVal_digitChar (m : Nat) (h : m < 10) :
    digitVal (Nat.digitChar m) = m := by
  interval_cases m <;> decide

theorem toDigitsCore_parse (fuel : Nat) :
    ∀ n, n < fuel → ∃ p, ∀ ds acc,
      ofDigits acc (Nat.toDigitsCore 10 fuel n ds) = ofDigits (acc * p + n) ds := by
  induction fuel with
  | zero => intro n h; exact absurd h (Nat.not_lt_zero n)
  | succ fuel ih =>
    intro n hn
    by_cases h10 : n / 10 = 0
    · refine ⟨10, fun ds acc => ?_⟩
      have hlt : n < 10 := by omega
      simp only [Nat.toDigitsCore, h10, if_pos]
      simp [ofDigits, digitVal_digitChar n hlt, Nat.mod_eq_of_lt hlt]
    · obtain ⟨p, hp⟩ := ih (n / 10) (by omega)
      refine ⟨p * 10, fun ds acc => ?_⟩
      simp only [Nat.toDigitsCore, h10, if_false]
      rw [hp]
      simp only [ofDigits]
      congr 1
      rw [digitVal_digitChar (n % 10) (Nat.mod_lt n (by omega))]
      have hq : acc * p * 10 = acc * (p * 10) := by ring
      omega

theorem ofDigits_toDigits (n : Nat) : ofDigits 0 (Nat.toDigits 10 n) = n := by
  obtain ⟨p, hp⟩ := toDigitsCore_parse (n + 1) n (Nat.lt_succ_self n)
  simpa [ofDigits, Nat.toDigits] using hp [] 0

theorem natRepr_data_injective {m n : Nat}
    (h : (Nat.repr m).data = (Nat.repr n).data) : m = n := by
  have hm : (Nat.repr m).data = Nat.toDigits 10 m := rfl
  have hn : (Nat.repr n).data = Nat.toDigits 10 n := rfl
  have h2 := congrArg (ofDigits 0) (hm ▸ hn ▸ h)
  rwa [ofDigits_toDigits, ofDigits_toDigits] at h2

/-! ### The candidate sequence of the collision loop -/

theorem candName_succ_inj {destDir baseName ext orig : String} {i j : Nat}
    (h : candName destDir baseName ext orig (i + 1)
       = candName destDir baseName ext orig (j + 1)) : i = j := by
  have hd := congrArg String.data h
  simp only [candName, pathJoin, mkNumbered, String.data_append,
    List.append_assoc] at hd
  have h1 := List.append_cancel_left hd
  have h2 := List.append_cancel_left h1
  have h3 := List.append_cancel_left h2
  have h4 := List.append_cancel_left h3
  have h5 := List.append_cancel_right h4
  have := natRepr_data_injective h5
  omega

theorem exists_free_cand (taken : List String) (destDir baseName ext orig : String) :
    ∃ m, m ≤ taken.length + 1 ∧ candName destDir baseName ext orig m ∉ taken := by
  by_contra hcon
  push_neg at hcon
  have hinj : ∀ i ∈ List.range' 1 (taken.length + 1),
      ∀ j ∈ List.range' 1 (taken.length + 1),
      candName destDir baseName ext orig i = candName destDir baseName ext orig j →
      i = j := by
    intro i hi j hj hij
    rw [List.mem_range'] at hi hj
    obtain ⟨i', hi', rfl⟩ := hi
    obtain ⟨j', hj', rfl⟩ := hj
    simp only [Nat.mul_one, Nat.one_mul] at hij ⊢
    have := candName_succ_inj (by simpa [Nat.add_comm] using hij)
    omega
  have hnd : ((List.range' 1 (taken.length + 1)).map
      (candName destDir baseName ext orig)).Nodup :=
    (List.nodup_range' 1 (taken.length + 1)).map_on hinj
  have hsub : ((List.range' 1 (taken.length + 1)).map
      (candName destDir baseName ext orig)) ⊆ taken := by
    intro x hx
    simp only [List.mem_map, List.mem_range'] at hx
    obtain ⟨i, ⟨i', hi', rfl⟩, rfl⟩ := hx
    exact hcon _ (by omega)
  have hlen := (List.subperm_of_subset hnd hsub).length_le
  simp only [List.length_map, List.length_range'] at hlen
  omega

theorem resolveGo_eq (taken : List String) (destDir baseName ext orig : String) :
    ∀ fuel k m, k ≤ m →
      (∀ j, k ≤ j → j < m → candName destDir baseName ext orig j ∈ taken) →
      candName destDir baseName ext orig m ∉ taken → m - k < fuel →
      resolveGo taken destDir baseName ext fuel (k + 1)
          (candName destDir baseName ext orig k)
        = candName destDir baseName ext orig m := by
  intro fuel
  induction fuel with
  | zero => intro k m _ _ _ h; omega
  | succ fuel ih =>
    intro k m hkm hall hfree hlt
    by_cases hk : k = m
    · subst hk
      simp [resolveGo, hfree]
    · have hkm' : k < m := lt_of_le_of_ne hkm hk
      have hmem : candName destDir baseName ext orig k ∈ taken := hall k le_rfl hkm'
      rw [resolveGo, if_pos hmem]
      have hcand : pathJoin destDir (mkNumbered baseName (k + 1) ext)
          = candName destDir baseName ext orig (k + 1) := rfl
      rw [hcand]
      exact ih (k + 1) m hkm' (fun j h1 h2 => hall j (by omega) h2) hfree (by omega)

/-- The collision loop returns exactly the first free candidate: there is an
index `m` whose candidate is free, every earlier candidate is taken, and the
result is that candidate.  In particular the loop terminates for every
finite taken set, with no fixed bound on the number of iterations. -/
theorem resolveDestList_spec (taken : List String) (p : String) :
    ∃ m, resolveDestList taken p
        = candName (dirname p) (splitext (basename p)).1 (splitext (basename p)).2 p m
      ∧ candName (dirname p) (splitext (basename p)).1 (splitext (basename p)).2 p m
          ∉ taken
      ∧ ∀ j < m, candName (dirname p) (splitext (basename p)).1
          (splitext (basename p)).2 p j ∈ taken := by
  have hex : ∃ m, candName (dirname p) (splitext (basename p)).1
      (splitext (basename p)).2 p m ∉ taken := by
    obtain ⟨m, _, hm⟩ := exists_free_cand taken (dirname p) (splitext (basename p)).1
      (splitext (basename p)).2 p
    exact ⟨m, hm⟩
  refine ⟨Nat.find hex, ?_, Nat.find_spec hex, fun j hj => ?_⟩
  · have hle : Nat.find hex ≤ taken.length + 1 := by
      obtain ⟨m0, hm0le, hm0⟩ := exists_free_cand taken (dirname p)
        (splitext (basename p)).1 (splitext (basename p)).2 p
      exact le_trans (Nat.find_min' hex hm0) hm0le
    have h0 : candName (dirname p) (splitext (basename p)).1
        (splitext (basename p)).2 p 0 = p := rfl
    have := resolveGo_eq taken (dirname p) (splitext (basename p)).1
      (splitext (basename p)).2 p (taken.length + 2) 0 (Nat.find hex)
      (Nat.zero_le _)
      (fun j _ h2 => not_not.mp (Nat.find_min hex h2))
      (Nat.find_spec hex) (by omega)
    rw [h0] at this
    simpa [resolveDestList] using this
  · exact not_not.mp (Nat.find_min hex hj)

/-- The chosen destination is taken by nothing: it does not exist on disk
and is not in the reservation set (whatever `taken` combines). -/
theorem resolveDestList_not_mem (taken : List String) (p : String) :
    resolveDestList taken p ∉ taken := by
  obtain ⟨m, hm, hfree, _⟩ := resolveDestList_spec taken p
  rw [hm]
  exact hfree

/-! ### Path structure lemmas -/

theorem lastSplit_of_not_mem {sep : Char} :
    ∀ {l : List Char}, sep ∉ l → lastSplit sep l = none := by
  intro l
  induction l with
  | nil => intro _; rfl
  | cons c rest ih =>
    intro h
    rw [lastSplit, ih (fun hm => h (List.mem_cons_of_mem c hm))]
    simp only [List.mem_cons, not_or] at h
    simp [Ne.symm h.1]

theorem lastSplit_append (sep : Char) (l₁ l₂ : List Char) (h : sep ∉ l₂) :
    lastSplit sep (l₁ ++ sep :: l₂) = some (l₁, l₂) := by
  induction l₁ with
  | nil => rw [List.nil_append, lastSplit, lastSplit_of_not_mem h]; simp
  | cons c rest ih => rw [List.cons_append, lastSplit, ih]

theorem pathJoin_data (a b : String) :
    (pathJoin a b).data = a.data ++ '/' :: b.data := by
  simp [pathJoin]

theorem dirname_pathJoin (a b : String) (h : '/' ∉ b.data) :
    dirname (pathJoin a b) = a := by
  rw [dirname, pathJoin_data, lastSplit_append '/' a.data b.data h]

theorem basename_pathJoin (a b : String) (h : '/' ∉ b.data) :
    basename (pathJoin a b) = b := by
  rw [basename, pathJoin_data, lastSplit_append '/' a.data b.data h]

theorem pathJoin_right_inj {a b c : String} (h : pathJoin a b = pathJoin a c) :
    b = c := by
  have hd := congrArg String.data h
  rw [pathJoin_data, pathJoin_data] at hd
  have h1 := List.append_cancel_left hd
  exact String.ext (List.tail_eq_of_cons_eq h1)

theorem pathJoin_ne_nested {folder nm cat y : String} (h : '/' ∉ nm.data) :
    pathJoin folder nm ≠ pathJoin (pathJoin folder cat) y := by
  intro he
  have hd := congrArg String.data he
  simp only [pathJoin_data, List.append_assoc, List.cons_append] at hd
  have h1 := List.append_cancel_left hd
  have h2 : nm.data = cat.data ++ '/' :: y.data := List.tail_eq_of_cons_eq h1
  apply h
  rw [h2]
  exact List.mem_append_right _ (List.mem_cons_self _ _)

/-- Every candidate the collision loop can return for a destination of the
form `A/name` (with a separator-free `name`) again lies directly under `A`. -/
theorem resolveDestList_shape (taken : List String) (A nm : String)
    (h : '/' ∉ nm.data) :
    ∃ y, resolveDestList taken (pathJoin A nm) = pathJoin A y := by
  obtain ⟨m, hm, _, _⟩ := resolveDestList_spec taken (pathJoin A nm)
  cases m with
  | zero => exact ⟨nm, by simpa [candName] using hm⟩
  | succ k =>
    rw [dirname_pathJoin A nm h] at hm
    exact ⟨_, hm⟩

/-! ### Filesystem step lemmas -/

theorem isfile_makedirs (fs : FS) (d p : String) :
    (fs.makedirs d).isfile p = fs.isfile p := rfl

theorem isfile_move {fs : FS} {src dst p : String} (h1 : p ≠ src) (h2 : p ≠ dst) :
    (fs.move src dst).isfile p = fs.isfile p := by
  simp only [FS.move, FS.isfile]
  apply decide_eq_decide.mpr
  rw [List.mem_cons, List.mem_erase_of_ne h1]
  simp [h2]

/-! ### Category lemmas -/

theorem lookup_mem_values {l : List (String × String)} {k v : String}
    (h : l.lookup k = some v) : v ∈ l.map Prod.snd := by
  induction l with
  | nil => simp [List.lookup] at h
  | cons a l ih =>
    rw [List.lookup] at h
    cases hk : k == a.1 with
    | true =>
      simp only [hk] at h
      obtain rfl : a.2 = v := by injection h
      simp
    | false =>
      simp only [hk] at h
      exact List.mem_cons_of_mem _ (ih h)

theorem categoryOf_mem (name : String) :
    categoryOf name ∈ ["Images", "Documents", "Videos", "Audio", "Archives", "Others"] := by
  unfold categoryOf
  cases h : FILE_EXT_MAPPINGS.lookup (extOf name) with
  | none => simp [OTHER_CATEGORY]
  | some v =>
    have hv := lookup_mem_values h
    have hall : ∀ x ∈ FILE_EXT_MAPPINGS.map Prod.snd,
        x ∈ ["Images", "Documents", "Videos", "Audio", "Archives", "Others"] := by
      decide
    simpa using hall v hv

theorem categoryOf_no_slash (name : String) : '/' ∉ (categoryOf name).data := by
  have h := categoryOf_mem name
  have hall : ∀ c ∈ ["Images", "Documents", "Videos", "Audio", "Archives", "Others"],
      '/' ∉ c.data := by decide
  exact hall _ h

/-! ### Branch equations for the loop body -/

theorem bool_eq_false {b : Bool} (h : ¬ b = true) : b = false := by
  cases b
  · rfl
  · exact absurd rfl h

theorem processOne_skip {simulate : Bool} {env : Env} {folder : String}
    {st : RunState} {name : String}
    (h : SKIP_FILENAMES.contains (strLower name) = true
       ∨ st.fs.isfile (pathJoin folder name) = false
       ∨ startsWithDot name = true) :
    processOne simulate env folder st name = (st, none, none) := by
  simp only [processOne]
  by_cases h1 : SKIP_FILENAMES.contains (strLower name) = true
  · rw [if_pos h1]
  · rw [if_neg h1]
    rcases h with h | h | h
    · exact absurd h h1
    · rw [if_pos (by simp [h])]
    · rw [if_pos (by simp [h])]

theorem processOne_sim_classified {env : Env} {folder : String}
    {st : RunState} {name : String}
    (h1 : SKIP_FILENAMES.contains (strLower name) = false)
    (h2 : st.fs.isfile (pathJoin folder name) = true)
    (h3 : startsWithDot name = false) :
    processOne true env folder st name =
      ({ fs := st.fs,
         reserved := resolveDestList (st.fs.files ++ st.fs.dirs ++ st.reserved)
             (pathJoin (pathJoin folder (categoryOf name)) name) :: st.reserved,
         counts := bumpCount st.counts (categoryOf name) },
       some { source := pathJoin folder name,
              dest := resolveDestList (st.fs.files ++ st.fs.dirs ++ st.reserved)
                  (pathJoin (pathJoin folder (categoryOf name)) name) },
       none) := by
  simp only [processOne]
  rw [if_neg (by rw [h1]; simp), if_neg (by simp [h2, h3]), if_pos trivial]

theorem processOne_exec_mkdirfail {env : Env} {folder : String}
    {st : RunState} {name : String}
    (h1 : SKIP_FILENAMES.contains (strLower name) = false)
    (h2 : st.fs.isfile (pathJoin folder name) = true)
    (h3 : startsWithDot name = false)
    (h4 : (env.makedirsFails (pathJoin folder (categoryOf name))
        || decide (pathJoin folder (categoryOf name) ∈ st.fs.files)) = true) :
    processOne false env folder st name = (st, none, some name) := by
  simp only [processOne]
  rw [if_neg (by rw [h1]; simp), if_neg (by simp [h2, h3]), if_neg (by simp),
    if_pos h4]

theorem processOne_exec_movefail {env : Env} {folder : String}
    {st : RunState} {name : String}
    (h1 : SKIP_FILENAMES.contains (strLower name) = false)
    (h2 : st.fs.isfile (pathJoin folder name) = true)
    (h3 : startsWithDot name = false)
    (h4 : (env.makedirsFails (pathJoin folder (categoryOf name))
        || decide (pathJoin folder (categoryOf name) ∈ st.fs.files)) = false)
    (h5 : env.moveFails (pathJoin folder name)
        (resolveDestList
          ((st.fs.makedirs (pathJoin folder (categoryOf name))).files
            ++ (st.fs.makedirs (pathJoin folder (categoryOf name))).dirs)
          (pathJoin (pathJoin folder (categoryOf name)) name)) = true) :
    processOne false env folder st name =
      ({ fs := st.fs.makedirs (pathJoin folder (categoryOf name)),
         reserved := st.reserved, counts := st.counts },
       none, some name) := by
  simp only [processOne]
  rw [if_neg (by rw [h1]; simp), if_neg (by simp [h2, h3]), if_neg (by simp),
    if_neg (by simp [h4])]
  have hsm : safeMove env (st.fs.makedirs (pathJoin folder (categoryOf name)))
      (pathJoin folder name) (pathJoin (pathJoin folder (categoryOf name)) name)
      = Except.error (pathJoin folder name) := by
    simp only [safeMove]
    rw [if_pos h5]
  rw [hsm]

theorem processOne_exec_moveok {env : Env} {folder : String}
    {st : RunState} {name : String}
    (h1 : SKIP_FILENAMES.contains (strLower name) = false)
    (h2 : st.fs.isfile (pathJoin folder name) = true)
    (h3 : startsWithDot name = false)
    (h4 : (env.makedirsFails (pathJoin folder (categoryOf name))
        || decide (pathJoin folder (categoryOf name) ∈ st.fs.files)) = false)
    (h5 : env.moveFails (pathJoin folder name)
        (resolveDestList
          ((st.fs.makedirs (pathJoin folder (categoryOf name))).files
            ++ (st.fs.makedirs (pathJoin folder (categoryOf name))).dirs)
          (pathJoin (pathJoin folder (categoryOf name)) name)) = false) :
    processOne false env folder st name =
      ({ fs := (st.fs.makedirs (pathJoin folder (categoryOf name))).move
           (pathJoin folder name)
           (resolveDestList
             ((st.fs.makedirs (pathJoin folder (categoryOf name))).files
               ++ (st.fs.makedirs (pathJoin folder (categoryOf name))).dirs)
             (pathJoin (pathJoin folder (categoryOf name)) name)),
         reserved := st.reserved, counts := bumpCount st.counts (categoryOf name) },
       some { source := pathJoin folder name,
              dest := resolveDestList
                ((st.fs.makedirs (pathJoin folder (categoryOf name))).files
                  ++ (st.fs.makedirs (pathJoin folder (categoryOf name))).dirs)
                (pathJoin (pathJoin folder (categoryOf name)) name) },
       none) := by
  simp only [processOne]
  rw [if_neg (by rw [h1]; simp), if_neg (by simp [h2, h3]), if_neg (by simp),
    if_neg (by simp [h4])]
  have hsm : safeMove env (st.fs.makedirs (pathJoin folder (categoryOf name)))
      (pathJoin folder name) (pathJoin (pathJoin folder (categoryOf name)) name)
      = Except.ok
          ((st.fs.makedirs (pathJoin folder (categoryOf name))).move
            (pathJoin folder name)
            (resolveDestList
              ((st.fs.makedirs (pathJoin folder (categoryOf name))).files
                ++ (st.fs.makedirs (pathJoin folder (categoryOf name))).dirs)
              (pathJoin (pathJoin folder (categoryOf name)) name)),
           resolveDestList
             ((st.fs.makedirs (pathJoin folder (categoryOf name))).files
               ++ (st.fs.makedirs (pathJoin folder (categoryOf name))).dirs)
             (pathJoin (pathJoin folder (categoryOf name)) name)) := by
    simp only [safeMove]
    rw [if_neg (by simp [h5])]
  rw [hsm]

theorem processItems_cons (simulate : Bool) (env : Env) (folder : String)
    (st : RunState) (name : String) (rest : List String) :
    processItems simulate env folder st (name :: rest) =
      { state := (processItems simulate env folder
          (processOne simulate env folder st name).1 rest).state,
        ops := (processOne simulate env folder st name).2.1.toList
          ++ (processItems simulate env folder
              (processOne simulate env folder st name).1 rest).ops,
        fails := (processOne simulate env folder st name).2.2.toList
          ++ (processItems simulate env folder
              (processOne simulate env folder st name).1 rest).fails } := rfl

/-! ### Simulate mode never touches the filesystem -/

theorem processOne_sim_fs (env : Env) (folder : String) (st : RunState)
    (name : String) : (processOne true env folder st name).1.fs = st.fs := by
  by_cases h1 : SKIP_FILENAMES.contains (strLower name) = true
  · rw [processOne_skip (Or.inl h1)]
  · by_cases h2 : st.fs.isfile (pathJoin folder name) = true
    · by_cases h3 : startsWithDot name = true
      · rw [processOne_skip (Or.inr (Or.inr h3))]
      · rw [processOne_sim_classified (bool_eq_false h1) h2 (bool_eq_false h3)]
    · rw [processOne_skip (Or.inr (Or.inl (bool_eq_false h2)))]

theorem processItems_sim_fs (env : Env) (folder : String) :
    ∀ (items : List String) (st : RunState),
      (processItems true env folder st items).state.fs = st.fs := by
  intro items
  induction items with
  | nil => intro st; rfl
  | cons name rest ih =>
    intro st
    rw [processItems_cons]
    rw [ih]
    exact processOne_sim_fs env folder st name

/-! ### Counting -/

theorem countsTotal_bump (c : List (String × Nat)) (cat : String) :
    countsTotal (bumpCount c cat) = countsTotal c + 1 := by
  induction c with
  | nil => simp [bumpCount, countsTotal]
  | cons kv rest ih =>
    obtain ⟨k, v⟩ := kv
    by_cases h : k = cat
    · simp [bumpCount, h, countsTotal]
      omega
    · simp only [bumpCount, if_neg h]
      simp only [countsTotal, List.map_cons, List.sum_cons] at ih ⊢
      omega

theorem processOne_counts (simulate : Bool) (env : Env) (folder : String)
    (st : RunState) (name : String) :
    countsTotal (processOne simulate env folder st name).1.counts
      = countsTotal st.counts
        + (processOne simulate env folder st name).2.1.toList.length := by
  by_cases h1 : SKIP_FILENAMES.contains (strLower name) = true
  · rw [processOne_skip (Or.inl h1)]
    simp
  · by_cases h2 : st.fs.isfile (pathJoin folder name) = true
    · by_cases h3 : startsWithDot name = true
      · rw [processOne_skip (Or.inr (Or.inr h3))]
        simp
      · have h1' := bool_eq_false h1
        have h3' := bool_eq_false h3
        cases simulate with
        | true =>
          rw [processOne_sim_classified h1' h2 h3']
          simp [countsTotal_bump]
        | false =>
          by_cases h4 : (env.makedirsFails (pathJoin folder (categoryOf name))
              || decide (pathJoin folder (categoryOf name) ∈ st.fs.files)) = true
          · rw [processOne_exec_mkdirfail h1' h2 h3' h4]
            simp
          · have h4' := bool_eq_false h4
            by_cases h5 : env.moveFails (pathJoin folder name)
                (resolveDestList
                  ((st.fs.makedirs (pathJoin folder (categoryOf name))).files
                    ++ (st.fs.makedirs (pathJoin folder (categoryOf name))).dirs)
                  (pathJoin (pathJoin folder (categoryOf name)) name)) = true
            · rw [processOne_exec_movefail h1' h2 h3' h4' h5]
              simp
            · have h5' := bool_eq_false h5
              rw [processOne_exec_moveok h1' h2 h3' h4' h5']
              simp [countsTotal_bump]
    · have h2' := bool_eq_false h2
      rw [processOne_skip (Or.inr (Or.inl h2'))]
      simp

theorem processItems_counts (simulate : Bool) (env : Env) (folder : String) :
    ∀ (items : List String) (st : RunState),
      countsTotal (processItems simulate env folder st items).state.counts
        = countsTotal st.counts
          + (processItems simulate env folder st items).ops.length := by
  intro items
  induction items with
  | nil => intro st; simp [processItems]
  | cons name rest ih =>
    intro st
    rw [processItems_cons]
    simp only [List.length_append]
    rw [ih, processOne_counts]
    omega

/-! ### Classification of an entry, and outcome case analyses -/

theorem processOne_not_classified {simulate : Bool} {env : Env} {folder : String}
    {st : RunState} {name : String}
    (h : classifiedB st.fs folder name = false) :
    processOne simulate env folder st name = (st, none, none) := by
  apply processOne_skip
  simp only [classifiedB, Bool.and_eq_false_iff, Bool.not_eq_false'] at h
  rcases h with (h | h) | h
  · exact Or.inl h
  · exact Or.inr (Or.inl h)
  · exact Or.inr (Or.inr (by simpa using h))

theorem processOne_sim_cases (env : Env) (folder : String) (st : RunState)
    (name : String) :
    (classifiedB st.fs folder name = false
      ∧ processOne true env folder st name = (st, none, none))
    ∨ (classifiedB st.fs folder name = true
      ∧ processOne true env folder st name
        = ({ fs := st.fs,
             reserved := resolveDestList (st.fs.files ++ st.fs.dirs ++ st.reserved)
                 (pathJoin (pathJoin folder (categoryOf name)) name) :: st.reserved,
             counts := bumpCount st.counts (categoryOf name) },
           some { source := pathJoin folder name,
                  dest := resolveDestList (st.fs.files ++ st.fs.dirs ++ st.reserved)
                      (pathJoin (pathJoin folder (categoryOf name)) name) },
           none)) := by
  by_cases hc : classifiedB st.fs folder name = true
  · refine Or.inr ⟨hc, ?_⟩
    simp only [classifiedB, Bool.and_eq_true, Bool.not_eq_true'] at hc
    exact processOne_sim_classified hc.1.1 hc.1.2 hc.2
  · exact Or.inl ⟨bool_eq_false hc, processOne_not_classified (bool_eq_false hc)⟩

/-! ### The simulate-mode plan invariant (distinct destinations, none on disk) -/

theorem processItems_sim_invariant (env : Env) (folder : String) :
    ∀ (items : List String) (st : RunState), st.reserved.Nodup →
      (((processItems true env folder st items).ops.map MoveOperation.dest)
          ++ st.reserved).Nodup
      ∧ ∀ op ∈ (processItems true env folder st items).ops,
          st.fs.existsPath op.dest = false := by
  intro items
  induction items with
  | nil =>
    intro st h
    constructor
    · simpa [processItems] using h
    · simp [processItems]
  | cons name rest ih =>
    intro st hnd
    rcases processOne_sim_cases env folder st name with ⟨_, heq⟩ | ⟨_, heq⟩
    · rw [processItems_cons, heq]
      simpa using ih st hnd
    · rw [processItems_cons, heq]
      have hfree : resolveDestList (st.fs.files ++ st.fs.dirs ++ st.reserved)
          (pathJoin (pathJoin folder (categoryOf name)) name)
          ∉ st.fs.files ++ st.fs.dirs ++ st.reserved :=
        resolveDestList_not_mem _ _
      simp only [List.mem_append, not_or] at hfree
      obtain ⟨⟨hfile, hdir⟩, hres⟩ := hfree
      obtain ⟨ihnd, ihex⟩ := ih
        { fs := st.fs,
          reserved := resolveDestList (st.fs.files ++ st.fs.dirs ++ st.reserved)
              (pathJoin (pathJoin folder (categoryOf name)) name) :: st.reserved,
          counts := bumpCount st.counts (categoryOf name) }
        (List.Nodup.cons hres hnd)
      constructor
      · simp only [Option.toList_some, List.map_cons, List.cons_append,
          List.singleton_append]
        exact (List.perm_middle.nodup_iff).mp (by simpa using ihnd)
      · intro op hop
        simp only [Option.toList_some, List.singleton_append, List.mem_cons] at hop
        rcases hop with rfl | hop
        · simp only [FS.existsPath, Bool.or_eq_false_iff, decide_eq_false_iff_not]
          exact ⟨by simpa using hfile, by simpa using hdir⟩
        · exact ihex op hop

/-! ### Record totals -/

theorem processOne_records_one {simulate : Bool} {env : Env} {folder : String}
    {st : RunState} {name : String}
    (h : classifiedB st.fs folder name = true) :
    (processOne simulate env folder st name).2.1.toList.length
      + (processOne simulate env folder st name).2.2.toList.length = 1 := by
  simp only [classifiedB, Bool.and_eq_true, Bool.not_eq_true'] at h
  obtain ⟨⟨h1, h2⟩, h3⟩ := h
  cases simulate with
  | true => rw [processOne_sim_classified h1 h2 h3]; rfl
  | false =>
    by_cases h4 : (env.makedirsFails (pathJoin folder (categoryOf name))
        || decide (pathJoin folder (categoryOf name) ∈ st.fs.files)) = true
    · rw [processOne_exec_mkdirfail h1 h2 h3 h4]; rfl
    · by_cases h5 : env.moveFails (pathJoin folder name)
          (resolveDestList
            ((st.fs.makedirs (pathJoin folder (categoryOf name))).files
              ++ (st.fs.makedirs (pathJoin folder (categoryOf name))).dirs)
            (pathJoin (pathJoin folder (categoryOf name)) name)) = true
      · rw [processOne_exec_movefail h1 h2 h3 (bool_eq_false h4) h5]; rfl
      · rw [processOne_exec_moveok h1 h2 h3 (bool_eq_false h4) (bool_eq_false h5)]
        rfl

theorem processOne_sim_same_fs_classified (env : Env) (folder : String)
    (st : RunState) (name : String) :
    classifiedB (processOne true env folder st name).1.fs folder
      = classifiedB st.fs folder := by
  rw [processOne_sim_fs]

theorem processItems_sim_totals (env : Env) (folder : String) :
    ∀ (items : List String) (st : RunState),
      (processItems true env folder st items).ops.length
        = (items.filter (fun n => classifiedB st.fs folder n)).length
      ∧ (processItems true env folder st items).fails = [] := by
  intro items
  induction items with
  | nil => intro st; simp [processItems]
  | cons name rest ih =>
    intro st
    rcases processOne_sim_cases env folder st name with ⟨hc, heq⟩ | ⟨hc, heq⟩
    · rw [processItems_cons, heq]
      obtain ⟨ihl, ihf⟩ := ih st
      constructor
      · simpa [List.filter_cons, hc] using ihl
      · simpa using ihf
    · rw [processItems_cons, heq]
      obtain ⟨ihl, ihf⟩ := ih
        { fs := st.fs,
          reserved := resolveDestList (st.fs.files ++ st.fs.dirs ++ st.reserved)
              (pathJoin (pathJoin folder (categoryOf name)) name) :: st.reserved,
          counts := bumpCount st.counts (categoryOf name) }
      constructor
      · simpa [List.filter_cons, hc] using ihl
      · simpa using ihf

/-! ### Execute mode: classification is stable across the run -/

theorem processOne_exec_isfile_stable (env : Env) (folder : String)
    (st : RunState) (name n : String) (hn : '/' ∉ n.data)
    (hname : '/' ∉ name.data) (hne : n ≠ name) :
    (processOne false env folder st name).1.fs.isfile (pathJoin folder n)
      = st.fs.isfile (pathJoin folder n) := by
  by_cases hc : classifiedB st.fs folder name = true
  · simp only [classifiedB, Bool.and_eq_true, Bool.not_eq_true'] at hc
    obtain ⟨⟨h1, h2⟩, h3⟩ := hc
    by_cases h4 : (env.makedirsFails (pathJoin folder (categoryOf name))
        || decide (pathJoin folder (categoryOf name) ∈ st.fs.files)) = true
    · rw [processOne_exec_mkdirfail h1 h2 h3 h4]
    · by_cases h5 : env.moveFails (pathJoin folder name)
          (resolveDestList
            ((st.fs.makedirs (pathJoin folder (categoryOf name))).files
              ++ (st.fs.makedirs (pathJoin folder (categoryOf name))).dirs)
            (pathJoin (pathJoin folder (categoryOf name)) name)) = true
      · rw [processOne_exec_movefail h1 h2 h3 (bool_eq_false h4) h5]
        exact isfile_makedirs st.fs _ _
      · rw [processOne_exec_moveok h1 h2 h3 (bool_eq_false h4) (bool_eq_false h5)]
        have hsrc : pathJoin folder n ≠ pathJoin folder name :=
          fun he => hne (pathJoin_right_inj he)
        obtain ⟨y, hy⟩ := resolveDestList_shape
          ((st.fs.makedirs (pathJoin folder (categoryOf name))).files
            ++ (st.fs.makedirs (pathJoin folder (categoryOf name))).dirs)
          (pathJoin folder (categoryOf name)) name hname
        rw [isfile_move hsrc (by rw [hy]; exact pathJoin_ne_nested hn)]
        exact isfile_makedirs st.fs _ _
  · rw [processOne_not_classified (bool_eq_false hc)]

theorem processItems_exec_totals (env : Env) (folder : String) :
    ∀ (items : List String) (st : RunState), items.Nodup →
      (∀ n ∈ items, '/' ∉ n.data) →
      (processItems false env folder st items).ops.length
          + (processItems false env folder st items).fails.length
        = (items.filter (fun n => classifiedB st.fs folder n)).length := by
  intro items
  induction items with
  | nil => intro st _ _; simp [processItems]
  | cons name rest ih =>
    intro st hnd hsl
    have hrest_nd := (List.nodup_cons.mp hnd).2
    have hname_notmem := (List.nodup_cons.mp hnd).1
    have hsl_rest : ∀ n ∈ rest, '/' ∉ n.data :=
      fun n hn => hsl n (List.mem_cons_of_mem _ hn)
    by_cases hc : classifiedB st.fs folder name = true
    · rw [processItems_cons]
      simp only [List.length_append]
      have hone := @processOne_records_one false env folder st name hc
      have hstable : ∀ n ∈ rest,
          classifiedB (processOne false env folder st name).1.fs folder n
            = classifiedB st.fs folder n := by
        intro n hn
        simp only [classifiedB]
        rw [processOne_exec_isfile_stable env folder st name n
          (hsl_rest n hn) (hsl name (List.mem_cons_self _ _))
          (fun he => hname_notmem (he ▸ hn))]
      have ihr := ih (processOne false env folder st name).1 hrest_nd hsl_rest
      rw [List.filter_congr hstable] at ihr
      rw [List.filter_cons_of_pos hc]
      simp only [List.length_cons]
      omega
    · rw [processItems_cons, processOne_not_classified (bool_eq_false hc)]
      have ihr := ih st hrest_nd hsl_rest
      simpa [List.filter_cons, bool_eq_false hc] using ihr

theorem processItems_exec_noop (env : Env) (folder : String) :
    ∀ (items : List String) (st : RunState),
      (∀ n ∈ items, classifiedB st.fs folder n = false) →
      processItems false env folder st items
        = { state := st, ops := [], fails := [] } := by
  intro items
  induction items with
  | nil => intro st _; rfl
  | cons name rest ih =>
    intro st h
    rw [processItems_cons, processOne_not_classified
      (h name (List.mem_cons_self _ _))]
    rw [ih st (fun n hn => h n (List.mem_cons_of_mem _ hn))]
    rfl

/-! ### Extension extraction characterization -/

theorem splitext_last_dot (b e : List Char) (he : '.' ∉ e)
    (hb : ∃ c ∈ b, c ≠ '.') :
    splitext ⟨b ++ '.' :: e⟩ = (⟨b⟩, ⟨'.' :: e⟩) := by
  have hdata : (String.mk (b ++ '.' :: e)).data = b ++ '.' :: e := rfl
  simp only [splitext, hdata, lastSplit_append '.' b e he]
  rw [if_pos]
  obtain ⟨c, hc, hcne⟩ := hb
  exact List.any_eq_true.mpr ⟨c, hc, by simpa using hcne⟩

/-! ### Claim theorems -/

/-- C1: for every Plan produced by the Planner (a simulate-mode run over a
directory snapshot), the destination paths of its MoveOperations are
pairwise distinct, and no destination path existed on disk at the moment
the Plan was constructed. -/
theorem claim_C1 (env : Env) (folder : String) (fs : FS) (items : List String) :
    ((organize_folder true env folder fs items).ops.map MoveOperation.dest).Nodup
    ∧ ∀ op ∈ (organize_folder true env folder fs items).ops,
        fs.existsPath op.dest = false := by
  simp only [organize_folder]
  obtain ⟨hnd, hex⟩ := processItems_sim_invariant env folder items
    { fs := fs, reserved := [], counts := [] } List.nodup_nil
  exact ⟨by simpa using hnd, hex⟩

/-- C2 counterexample: a classified entry (`a.txt`, a regular non-ignored
non-hidden file) whose move fails leaves the per-category summary empty:
the count for its category is NOT incremented, contradicting the claim
that the summary is incremented at classification time even when the move
later fails. -/
theorem claim_C2_counterexample :
    classifiedB (FS.mk ["/f/a.txt"] ["/f"]) "/f" "a.txt" = true
    ∧ (organize_folder false envAllMovesFail "/f"
        (FS.mk ["/f/a.txt"] ["/f"]) ["a.txt"]).state.counts = []
    ∧ (organize_folder false envAllMovesFail "/f"
        (FS.mk ["/f/a.txt"] ["/f"]) ["a.txt"]).fails = ["a.txt"] := by
  refine ⟨by decide, by decide, by decide⟩

/-- C2 (amended): in simulate mode the summary counts every classified
entry exactly once (collisions notwithstanding): its total equals the
number of classified entries.  In execute mode the summary counts only
successful moves: its total equals the number of `Moved` records, so
entries whose move (or destination-folder creation) fails are not
counted — the summary reflects execution outcome, not classification. -/
theorem claim_C2 (env : Env) (folder : String) (fs : FS) (items : List String) :
    countsTotal (organize_folder true env folder fs items).state.counts
      = (items.filter (fun n => classifiedB fs folder n)).length
    ∧ countsTotal (organize_folder false env folder fs items).state.counts
      = (organize_folder false env folder fs items).ops.length := by
  simp only [organize_folder]
  constructor
  · have h1 := processItems_counts true env folder items
      { fs := fs, reserved := [], counts := [] }
    have h2 := (processItems_sim_totals env folder items
      { fs := fs, reserved := [], counts := [] }).1
    dsimp only at h1 h2
    simp only [countsTotal, List.map_nil, List.sum_nil] at h1 h2 ⊢
    omega
  · have h1 := processItems_counts false env folder items
      { fs := fs, reserved := [], counts := [] }
    dsimp only at h1
    simp only [countsTotal, List.map_nil, List.sum_nil] at h1 ⊢
    omega

/-- C3: the tentative destination is `{folder}/{Category}/{entry.name}`
(index 0 of the candidate sequence); while taken it is rewritten as
`{stem} ({n}){ext}` with `n` starting at 1, and the first free candidate
is chosen.  Concretely: `a.txt` colliding with a pre-existing
`Documents/a.txt` resolves to `Documents/a (1).txt`, and of three
simulated in-pass duplicates the second gets `(1)` and the third `(2)`. -/
theorem claim_C3 :
    (∀ (taken : List String) (p : String),
      ∃ m, resolveDestList taken p
          = candName (dirname p) (splitext (basename p)).1
              (splitext (basename p)).2 p m
        ∧ candName (dirname p) (splitext (basename p)).1
            (splitext (basename p)).2 p m ∉ taken
        ∧ ∀ j < m, candName (dirname p) (splitext (basename p)).1
            (splitext (basename p)).2 p j ∈ taken)
    ∧ (organize_folder true envNoFailure "/f"
        (FS.mk ["/f/a.txt", "/f/Documents/a.txt"] ["/f", "/f/Documents"])
        ["a.txt"]).ops
      = [{ source := "/f/a.txt", dest := "/f/Documents/a (1).txt" }]
    ∧ (organize_folder true envNoFailure "/f" (FS.mk ["/f/b.txt"] ["/f"])
        ["b.txt", "b.txt", "b.txt"]).ops
      = [{ source := "/f/b.txt", dest := "/f/Documents/b.txt" },
         { source := "/f/b.txt", dest := "/f/Documents/b (1).txt" },
         { source := "/f/b.txt", dest := "/f/Documents/b (2).txt" }] :=
  ⟨fun taken p => resolveDestList_spec taken p, by decide, by decide⟩

/-- C4: the execute-mode run attempts every classified entry and produces
one record per entry: moved + skipped equals the size N of the Plan the
Planner computes from the same snapshot; when N = 0 the execute-mode run
returns (0, 0) and performs no side effects (the state is untouched). -/
theorem claim_C4 (env env2 : Env) (folder : String) (fs : FS)
    (items : List String) (hnd : items.Nodup)
    (hsl : ∀ n ∈ items, '/' ∉ n.data) :
    (organize_folder false env folder fs items).ops.length
        + (organize_folder false env folder fs items).fails.length
      = (organize_folder true env2 folder fs items).ops.length
    ∧ ((organize_folder true env2 folder fs items).ops.length = 0 →
        organize_folder false env folder fs items
          = { state := { fs := fs, reserved := [], counts := [] },
              ops := [], fails := [] }) := by
  simp only [organize_folder]
  have hexec := processItems_exec_totals env folder items
    { fs := fs, reserved := [], counts := [] } hnd hsl
  have hsim := (processItems_sim_totals env2 folder items
    { fs := fs, reserved := [], counts := [] }).1
  constructor
  · rw [hexec, hsim]
  · intro h0
    rw [hsim] at h0
    have hall : ∀ n ∈ items, classifiedB fs folder n = false := by
      intro n hn
      exact bool_eq_false
        (List.filter_eq_nil_iff.mp (List.length_eq_zero.mp h0) n hn)
    exact processItems_exec_noop env folder items
      { fs := fs, reserved := [], counts := [] } hall

/-- C4 witness: two regular files, every move failing: the Executor
attempts both, moved + skipped = 2 = N. -/
theorem claim_C4_witness :
    (["a.txt", "b.png"] : List String).Nodup
    ∧ (∀ n ∈ (["a.txt", "b.png"] : List String), '/' ∉ n.data)
    ∧ ((organize_folder false envAllMovesFail "/f"
          (FS.mk ["/f/a.txt", "/f/b.png"] ["/f"]) ["a.txt", "b.png"]).ops.length
        + (organize_folder false envAllMovesFail "/f"
            (FS.mk ["/f/a.txt", "/f/b.png"] ["/f"]) ["a.txt", "b.png"]).fails.length
      = (organize_folder true envNoFailure "/f"
          (FS.mk ["/f/a.txt", "/f/b.png"] ["/f"]) ["a.txt", "b.png"]).ops.length) :=
  ⟨by decide, by decide,
    (claim_C4 envAllMovesFail envNoFailure "/f"
      (FS.mk ["/f/a.txt", "/f/b.png"] ["/f"]) ["a.txt", "b.png"]
      (by decide) (by decide)).1⟩

/-- C5: when a classified entry's operation fails — destination-folder
creation fails, or the move itself raises — the run records exactly that
one failure, emits no move record and no count for it, and continues with
the remaining operations from an otherwise unchanged loop state (only the
destination directory may have been created); no error aborts the loop. -/
theorem claim_C5 (env : Env) (folder : String) (st : RunState) (name : String)
    (rest : List String)
    (hclass : classifiedB st.fs folder name = true)
    (hfail : ((env.makedirsFails (pathJoin folder (categoryOf name))
        || decide (pathJoin folder (categoryOf name) ∈ st.fs.files))
      || env.moveFails (pathJoin folder name)
          (resolveDestList
            ((st.fs.makedirs (pathJoin folder (categoryOf name))).files
              ++ (st.fs.makedirs (pathJoin folder (categoryOf name))).dirs)
            (pathJoin (pathJoin folder (categoryOf name)) name))) = true) :
    ∃ st' : RunState,
      (st'.fs = st.fs ∨ st'.fs = st.fs.makedirs (pathJoin folder (categoryOf name)))
      ∧ st'.reserved = st.reserved ∧ st'.counts = st.counts
      ∧ processItems false env folder st (name :: rest)
        = { state := (processItems false env folder st' rest).state,
            ops := (processItems false env folder st' rest).ops,
            fails := name :: (processItems false env folder st' rest).fails } := by
  simp only [classifiedB, Bool.and_eq_true, Bool.not_eq_true'] at hclass
  obtain ⟨⟨h1, h2⟩, h3⟩ := hclass
  by_cases h4 : (env.makedirsFails (pathJoin folder (categoryOf name))
      || decide (pathJoin folder (categoryOf name) ∈ st.fs.files)) = true
  · refine ⟨st, Or.inl rfl, rfl, rfl, ?_⟩
    rw [processItems_cons, processOne_exec_mkdirfail h1 h2 h3 h4]
    rfl
  · by_cases h5 : env.moveFails (pathJoin folder name)
        (resolveDestList
          ((st.fs.makedirs (pathJoin folder (categoryOf name))).files
            ++ (st.fs.makedirs (pathJoin folder (categoryOf name))).dirs)
          (pathJoin (pathJoin folder (categoryOf name)) name)) = true
    · refine ⟨RunState.mk (st.fs.makedirs (pathJoin folder (categoryOf name)))
        st.reserved st.counts, Or.inr rfl, rfl, rfl, ?_⟩
      rw [processItems_cons, processOne_exec_movefail h1 h2 h3
        (bool_eq_false h4) h5]
      rfl
    · exfalso
      rw [bool_eq_false h4, bool_eq_false h5] at hfail
      exact absurd hfail (by decide)

/-- C5 witness: a locked file's move fails; the run records the failure
and continues with the next entry. -/
theorem claim_C5_witness :
    classifiedB (FS.mk ["/f/a.txt", "/f/b.png"] ["/f"]) "/f" "a.txt" = true
    ∧ ((envAllMovesFail.makedirsFails (pathJoin "/f" (categoryOf "a.txt"))
        || decide (pathJoin "/f" (categoryOf "a.txt")
            ∈ (FS.mk ["/f/a.txt", "/f/b.png"] ["/f"]).files))
      || envAllMovesFail.moveFails (pathJoin "/f" "a.txt")
          (resolveDestList
            (((FS.mk ["/f/a.txt", "/f/b.png"] ["/f"]).makedirs
                (pathJoin "/f" (categoryOf "a.txt"))).files
              ++ ((FS.mk ["/f/a.txt", "/f/b.png"] ["/f"]).makedirs
                  (pathJoin "/f" (categoryOf "a.txt"))).dirs)
            (pathJoin (pathJoin "/f" (categoryOf "a.txt")) "a.txt"))) = true
    ∧ ∃ st' : RunState,
      (st'.fs = (FS.mk ["/f/a.txt", "/f/b.png"] ["/f"])
        ∨ st'.fs = (FS.mk ["/f/a.txt", "/f/b.png"] ["/f"]).makedirs
            (pathJoin "/f" (categoryOf "a.txt")))
      ∧ st'.reserved = ([] : List String) ∧ st'.counts = ([] : List (String × Nat))
      ∧ processItems false envAllMovesFail "/f"
          { fs := FS.mk ["/f/a.txt", "/f/b.png"] ["/f"], reserved := [], counts := [] }
          ("a.txt" :: ["b.png"])
        = { state := (processItems false envAllMovesFail "/f" st' ["b.png"]).state,
            ops := (processItems false envAllMovesFail "/f" st' ["b.png"]).ops,
            fails := "a.txt"
              :: (processItems false envAllMovesFail "/f" st' ["b.png"]).fails } :=
  ⟨by decide, by decide,
    claim_C5 envAllMovesFail "/f"
      { fs := FS.mk ["/f/a.txt", "/f/b.png"] ["/f"], reserved := [], counts := [] }
      "a.txt" ["b.png"] (by decide) (by decide)⟩

/-- C6: an entry that is ignored (name in the OS-metadata ignore set, any
case), not a regular file, or hidden (name starting with a dot)
contributes nothing: the run over `name :: rest` equals the run over
`rest`, so the entry is never a MoveOperation source and never increments
any category count, in either mode. -/
theorem claim_C6 (simulate : Bool) (env : Env) (folder : String)
    (st : RunState) (name : String) (rest : List String)
    (h : SKIP_FILENAMES.contains (strLower name) = true
       ∨ st.fs.isfile (pathJoin folder name) = false
       ∨ startsWithDot name = true) :
    processItems simulate env folder st (name :: rest)
      = processItems simulate env folder st rest := by
  rw [processItems_cons, processOne_skip h]
  rfl

/-- C6 witness: `Thumbs.DB` (mixed case) is skipped entirely. -/
theorem claim_C6_witness :
    (SKIP_FILENAMES.contains (strLower "Thumbs.DB") = true
      ∨ (FS.mk ["/f/Thumbs.DB"] ["/f"]).isfile (pathJoin "/f" "Thumbs.DB") = false
      ∨ startsWithDot "Thumbs.DB" = true)
    ∧ processItems true envNoFailure "/f"
        { fs := FS.mk ["/f/Thumbs.DB"] ["/f"], reserved := [], counts := [] }
        ("Thumbs.DB" :: [])
      = processItems true envNoFailure "/f"
          { fs := FS.mk ["/f/Thumbs.DB"] ["/f"], reserved := [], counts := [] }
          [] :=
  ⟨Or.inl (by decide),
    claim_C6 true envNoFailure "/f"
      { fs := FS.mk ["/f/Thumbs.DB"] ["/f"], reserved := [], counts := [] }
      "Thumbs.DB" [] (Or.inl (by decide))⟩

/-- C7: the Planner (simulate mode) performs zero filesystem mutations:
the filesystem after planning is exactly the input snapshot, for every
directory, environment and listing. -/
theorem claim_C7 (env : Env) (folder : String) (fs : FS) (items : List String) :
    (organize_folder true env folder fs items).state.fs = fs :=
  processItems_sim_fs env folder items { fs := fs, reserved := [], counts := [] }

/-- C8: the collision-resolution loop terminates on every filesystem state
and reservation set: the chosen destination is free of the (finite) taken
set, and it is reached as some finite index of the candidate sequence
`orig, {stem} (1){ext}, {stem} (2){ext}, ...` — with no fixed bound, since
`taken` is an arbitrary finite list. -/
theorem claim_C8 (taken : List String) (p : String) :
    resolveDestList taken p ∉ taken
    ∧ ∃ m, candName (dirname p) (splitext (basename p)).1
          (splitext (basename p)).2 p m ∉ taken
        ∧ resolveDestList taken p
          = candName (dirname p) (splitext (basename p)).1
              (splitext (basename p)).2 p m := by
  obtain ⟨m, hm, hfree, _⟩ := resolveDestList_spec taken p
  exact ⟨hm ▸ hfree, m, hfree, hm⟩

/-- C9: planning is idempotent: running the Planner a second time on the
directory state left by the first run (which is untouched) yields an
identical Plan — the same ordered move records and the same summary. -/
theorem claim_C9 (env : Env) (folder : String) (fs : FS) (items : List String) :
    organize_folder true env folder
        (organize_folder true env folder fs items).state.fs items
      = organize_folder true env folder fs items := by
  have h := processItems_sim_fs env folder items
    { fs := fs, reserved := [], counts := [] }
  simp only [organize_folder]
  rw [h]

/-- C10: the extension used for classification is exactly the suffix from
the LAST dot of the name (lowercased): `splitext` splits a multi-dot name
at its final dot, so `archive.tar.gz` is classified by `.gz` alone —
which is unmapped, hence `Others` — and never by `.tar.gz`. -/
theorem claim_C10 (b e : List Char) (he : '.' ∉ e) (hb : ∃ c ∈ b, c ≠ '.') :
    splitext ⟨b ++ '.' :: e⟩ = (⟨b⟩, ⟨'.' :: e⟩)
    ∧ (∀ name : String,
        categoryOf name
          = (FILE_EXT_MAPPINGS.lookup (strLower (splitext name).2)).getD
              OTHER_CATEGORY)
    ∧ extOf "archive.tar.gz" = ".gz"
    ∧ categoryOf "archive.tar.gz" = "Others" :=
  ⟨splitext_last_dot b e he hb, fun _ => rfl, by decide, by decide⟩

/-- C10 witness: `archive.tar.gz` splits at the final dot. -/
theorem claim_C10_witness :
    ('.' ∉ ("gz".data : List Char))
    ∧ (∃ c ∈ ("archive.tar".data : List Char), c ≠ '.')
    ∧ splitext ⟨"archive.tar".data ++ '.' :: "gz".data⟩
      = (⟨"archive.tar".data⟩, ⟨'.' :: "gz".data⟩) :=
  ⟨by decide, by decide,
    (claim_C10 "archive.tar".data "gz".data (by decide) (by decide)).1⟩

end FileOrganizer
